import Mathlib

/-!
Verification of the benchmark-harness CI pipeline and dashboard of the
programming-skills repository, by a shallow embedding of the shell scripts
(`ci/run_evaluation.sh`, `ci/consolidate_results.sh`,
`ci/orchestrate_evaluations.sh`, `ci/validate_skills.sh`) and of the
dashboard logic (`src/pages/benchmarks/app.js`).
-/

namespace Skills

/-! ## CI pipeline model

A (provider, model) unit is one invocation of `ci/run_evaluation.sh`.
The evaluator process either exits with a code (`some n`) or is killed
mid-run (`none`).
-/

/-- One (provider, model) evaluation unit: the provider name, the model
name, and the fate of its `tests/evaluator.py` process (`some n` = exited
with code `n`, `none` = process killed mid-run). -/
structure UnitSpec where
  provider : String
  model : String
  evalExit : Option Nat
deriving DecidableEq, Repr

/-- Contents of the `exit_code` file that `ci/run_evaluation.sh` leaves in
the unit's result directory.  The script runs under `set -e`, so a
non-zero evaluator exit aborts the script at the `"${CMD[@]}"` line,
before `echo "$EXIT_CODE" > "$RESULTS_DIR/exit_code"` is reached; a killed
process writes nothing either.  Only a successful evaluation records a
code (always `0`). -/
def runEvaluationRecord (evalExit : Option Nat) : Option Nat :=
  match evalExit with
  | some 0 => some 0
  | _ => none

/-- Exit status of the `ci/run_evaluation.sh` process itself: under
`set -e` the script exits with the evaluator's code; a killed process is
modelled with the conventional signal status 137. -/
def runEvaluationExit (evalExit : Option Nat) : Nat :=
  match evalExit with
  | some n => n
  | none => 137

/-- One result directory under `tests/results`, as seen by
`ci/consolidate_results.sh`: its provider/model name, the contents of its
`exit_code` file if that file exists, and its optional `summary.json`. -/
structure ResultDir where
  name : String
  exit_code : Option Nat
  summary : Option String
deriving DecidableEq, Repr

/-- The per-directory status line printed by `ci/consolidate_results.sh`.
A directory without an `exit_code` file is skipped (`continue`), producing
no line at all. -/
def dirStatusLine (d : ResultDir) : Option String :=
  match d.exit_code with
  | none => none
  | some 0 => some ("✅ " ++ d.name ++ " - PASSED")
  | some n => some ("❌ " ++ d.name ++ " - FAILED (exit code: " ++ toString n ++ ")")

/-- `SUCCEEDED` counter of `ci/consolidate_results.sh`. -/
def succeededCount (dirs : List ResultDir) : Nat :=
  (dirs.filter (fun d => d.exit_code == some 0)).length

/-- `FAILED` counter of `ci/consolidate_results.sh`: directories whose
recorded exit code exists and is non-zero. -/
def failedCount (dirs : List ResultDir) : Nat :=
  (dirs.filter (fun d => d.exit_code.any (fun n => n != 0))).length

/-- Every recorded exit code (in a directory that has one) is zero. -/
def allRecordedZero (dirs : List ResultDir) : Bool :=
  dirs.all (fun d => d.exit_code.all (fun n => n == 0))

/-- The `Results by provider/model` block of `ci/consolidate_results.sh`:
one line per directory that has an `exit_code` file, in directory order. -/
def consolidateStatusLines (dirs : List ResultDir) : List String :=
  dirs.filterMap dirStatusLine

/-- Exit code of `ci/consolidate_results.sh`: `1` when no result
directory exists at all, `1` when `FAILED > 0`, else `0`. -/
def consolidateExit (dirs : List ResultDir) : Nat :=
  if dirs.isEmpty then 1
  else if failedCount dirs > 0 then 1 else 0

/-- The failure-count line `❌ N evaluation(s) failed`. -/
def failLine (dirs : List ResultDir) : String :=
  "❌ " ++ toString (failedCount dirs) ++ " evaluation(s) failed"

/-- Trailing output of `ci/consolidate_results.sh` after the status block:
the summary counters and the final verdict line. -/
def consolidateOutput (dirs : List ResultDir) : List String :=
  consolidateStatusLines dirs ++
    ["Succeeded: " ++ toString (succeededCount dirs),
     "Failed: " ++ toString (failedCount dirs)] ++
    (if failedCount dirs > 0 then [failLine dirs] else ["✅ All evaluations passed"])

/-- The result directory a started unit leaves behind: `run_evaluation.sh`
does `mkdir -p "$RESULTS_DIR"` before executing the evaluator, so the
directory exists even when the evaluation fails, but its `exit_code` file
exists only when the evaluation succeeded (see `runEvaluationRecord`). -/
def unitDir (u : UnitSpec) : ResultDir :=
  ⟨u.provider ++ "/" ++ u.model, runEvaluationRecord u.evalExit, none⟩

/-- Units actually executed by the sequential branch of
`ci/orchestrate_evaluations.sh`.  The orchestrator runs under `set -e`,
so the first `run_evaluation.sh` call that exits non-zero aborts the
loop; the failing unit itself ran, later units never start. -/
def seqExecuted : List UnitSpec → List UnitSpec
  | [] => []
  | u :: rest =>
    if runEvaluationExit u.evalExit = 0 then u :: seqExecuted rest else [u]

/-- Exit code of the first failing unit in sequential order, if any. -/
def firstFailure : List UnitSpec → Option Nat
  | [] => none
  | u :: rest =>
    if runEvaluationExit u.evalExit = 0 then firstFailure rest
    else some (runEvaluationExit u.evalExit)

/-- Exit code of a sequential `ci/orchestrate_evaluations.sh` run: under
`set -e` a failing unit aborts the orchestrator with that unit's code
before consolidation; otherwise the consolidation exit code is
propagated. -/
def orchestrateSeqExit (units : List UnitSpec) : Nat :=
  match firstFailure units with
  | some n => n
  | none => consolidateExit (units.map unitDir)

/-- In the parallel branch every unit is started in the background and
every pid is awaited, so each started unit runs to completion and leaves
its result directory. -/
def parResults (units : List UnitSpec) : List (UnitSpec × Nat) :=
  units.map (fun u => (u, runEvaluationExit u.evalExit))

/-- `FAILED` counter of the parallel wait loop: units whose
`run_evaluation.sh` process exited non-zero.  It only produces a warning
line, never an exit. -/
def parFailedCount (units : List UnitSpec) : Nat :=
  (units.filter (fun u => runEvaluationExit u.evalExit != 0)).length

/-- Exit code of a parallel `ci/orchestrate_evaluations.sh` run: the
wait-loop failures are only warned about, and the consolidation exit code
is propagated. -/
def orchestrateParExit (units : List UnitSpec) : Nat :=
  consolidateExit (units.map unitDir)

/-! ## Result store model (history / append-only behaviour)

The store is the set of files under `tests/results`, as (path, contents)
pairs.  `ci/orchestrate_evaluations.sh` begins every run with
`rm -rf tests/results/*`. -/

/-- Files a unit writes into the results store: its `exit_code` file when
the evaluation succeeds (see `runEvaluationRecord`), nothing otherwise. -/
def unitWrites (u : UnitSpec) : List (String × String) :=
  match runEvaluationRecord u.evalExit with
  | some n =>
    [("tests/results/" ++ u.provider ++ "/" ++ u.model ++ "/exit_code", toString n)]
  | none => []

/-- Per-unit log file the parallel branch of the orchestrator redirects
into. -/
def unitLogWrites (u : UnitSpec) : List (String × String) :=
  [("tests/results/" ++ u.provider ++ "_" ++ u.model ++ ".log", "log")]

/-- Contents of `tests/results` after one `ci/orchestrate_evaluations.sh`
run over the previous contents `prev`: the run first clears the store
(`rm -rf tests/results/*`), then the executed units write their files. -/
def runResultsStore (units : List UnitSpec) (parallel : Bool)
    (prev : List (String × String)) : List (String × String) :=
  let _ := prev
  let executed := if parallel then units else seqExecuted units
  (executed.flatMap unitWrites) ++
    (if parallel then units.flatMap unitLogWrites else [])

/-! ## Mechanical Verifier (spec-modelled)

`tests/evaluator.py` and the `tests/domain` modules are not part of the
sources at hand (only `tests/ARCHITECTURE.md` describes them), so the
verifier is modelled from the specification, §4.5. -/

/-- `needle` matches at the head of `hay`. -/
def leadsWith : List Char → List Char → Bool
  | [], _ => true
  | _ :: _, [] => false
  | a :: as, b :: bs => a == b && leadsWith as bs

/-- `needle` occurs somewhere in the character list. -/
def occursIn (needle : List Char) : List Char → Bool
  | [] => needle.isEmpty
  | c :: rest => leadsWith needle (c :: rest) || occursIn needle rest

/-- Case-sensitive substring containment. -/
def strContains (hay needle : String) : Bool :=
  occursIn needle.toList hay.toList

/-- Modelled from the spec: the `ExpectationSpec` of §3/§4.5 (the
implementing `tests/evaluator.py` is absent from the sources): optional
`includes` / `excludes` substring sets, `regex` patterns (abstracted as
match predicates, `rx`), and character-count bounds.  An absent field is
the empty list / `none` and its check is skipped. -/
structure ExpectationSpec where
  includes : List String := []
  excludes : List String := []
  rx : List (String → Bool) := []
  min_length : Option Nat := none
  max_length : Option Nat := none

/-- Modelled from the spec: `MechanicalVerdict` of §3 — pass/fail plus
the list of violated sub-checks. -/
structure MechanicalVerdict where
  pass : Bool
  violations : List String
deriving DecidableEq, Repr

/-- Modelled from the spec: the pure verifier of §4.5
(`tests/evaluator.py` is absent from the sources).  Every sub-check is
evaluated — no short-circuiting — and each failing check contributes its
name to the violation list; the verdict passes iff no check failed. -/
def verify (response : String) (spec : ExpectationSpec) : MechanicalVerdict :=
  let incOk := spec.includes.all (fun s => strContains response s)
  let excOk := spec.excludes.all (fun s => !strContains response s)
  let rxOk := spec.rx.all (fun p => p response)
  let minOk := spec.min_length.all (fun n => decide (n ≤ response.length))
  let maxOk := spec.max_length.all (fun n => decide (response.length ≤ n))
  let violations :=
    (if incOk then [] else ["includes"]) ++
    (if excOk then [] else ["excludes"]) ++
    (if rxOk then [] else ["regex"]) ++
    (if minOk then [] else ["min_length"]) ++
    (if maxOk then [] else ["max_length"])
  ⟨violations.isEmpty, violations⟩

/-! ## Dashboard model (`src/pages/benchmarks/app.js`) -/

/-- `getRatingColor` of `app.js`: lookup with fallback `secondary`. -/
def getRatingColor (rating : String) : String :=
  if rating == "vague" then "secondary"
  else if rating == "regular" then "warning"
  else if rating == "good" then "primary"
  else if rating == "outstanding" then "success"
  else "secondary"

/-- `getRatingStars` of `app.js`: lookup with fallback empty string. -/
def getRatingStars (rating : String) : String :=
  if rating == "vague" then "⭐"
  else if rating == "regular" then "⭐⭐"
  else if rating == "good" then "⭐⭐⭐"
  else if rating == "outstanding" then "⭐⭐⭐⭐"
  else ""

/-- The four judge rating bands in their specified order
vague < regular < good < outstanding; any other string has no rank. -/
def bandRank (rating : String) : Option Nat :=
  if rating == "vague" then some 0
  else if rating == "regular" then some 1
  else if rating == "good" then some 2
  else if rating == "outstanding" then some 3
  else none

/-- The `judgment` object attached to a run, as read by
`renderModalContent` (`j.overall_better`, `j.score`). -/
structure Judgment where
  overall_better : Option String := none
  score : Option Nat := none
deriving DecidableEq, Repr

/-- A run as rendered by the dashboard detail view: the `judge_error`
flag and the optional `judgment` object. -/
structure SkillRecord where
  judge_error : Bool
  judgment : Option Judgment := none
deriving DecidableEq, Repr

/-- The score shown by `renderModalContent`:
`isError ? "N/A" : (j.score ?? 0)`. -/
def displayedScore (r : SkillRecord) : String :=
  if r.judge_error then "N/A"
  else toString ((r.judgment.getD {}).score.getD 0)

/-- The verdict badge of `renderModalContent`: `JUDGE ERROR` when the
record's judge failed, otherwise the Better/Worse/Equal discriminant
derived from `j.overall_better || "Equal"`. -/
def displayedVerdict (r : SkillRecord) : String :=
  if r.judge_error then "JUDGE ERROR"
  else
    let better := (r.judgment.getD {}).overall_better.getD "Equal"
    if better == "B" then "BETTER"
    else if better == "A" then "WORSE"
    else "EQUAL"

/-- The double-quote character, `\x22`. -/
def quotChar : Char := Char.ofNat 34

/-- The apostrophe character, `\x27`. -/
def aposChar : Char := Char.ofNat 39

/-- Global single-character replacement, the semantics of
`text.replace(/c/g, rep)` for a one-character pattern. -/
def replaceChar (c : Char) (rep : List Char) (l : List Char) : List Char :=
  l.flatMap (fun a => if a == c then rep else [a])

/-- The replacement chain of `escapeHtml` in `app.js`: ampersand first,
then `<`, `>`, double quote, apostrophe. -/
def escapeChain (l : List Char) : List Char :=
  replaceChar aposChar "&#039;".toList
    (replaceChar quotChar "&quot;".toList
      (replaceChar '>' "&gt;".toList
        (replaceChar '<' "&lt;".toList
          (replaceChar '&' "&amp;".toList l))))

/-- `escapeHtml` of `app.js` on a string input: falsy (empty) input maps
to the empty string, otherwise the five-step replacement chain runs. -/
def escapeHtml (text : String) : String :=
  if text == "" then "" else String.mk (escapeChain text.toList)

/-- `escapeHtml` including the null/undefined input cases (`!text`). -/
def escapeHtmlOpt : Option String → String
  | none => ""
  | some t => escapeHtml t

/-- Per-character escaping table: what each input character contributes
to the output of the chain (derived characterization used in the
statements below). -/
def escChar (a : Char) : List Char :=
  if a == '&' then "&amp;".toList
  else if a == '<' then "&lt;".toList
  else if a == '>' then "&gt;".toList
  else if a == quotChar then "&quot;".toList
  else if a == aposChar then "&#039;".toList
  else [a]

/-- A flattened run row of `renderTable`: skill, provider, model,
timestamp and improvement.  Timestamps are modelled as naturals ordered
like the `Date` values the script compares. -/
structure RunRow where
  skill_name : String
  provider : String
  model : String
  timestamp : Nat
  improvement : String
deriving DecidableEq, Repr

/-- A per-skill entry inside a benchmarks document, with its optional
provider/model/timestamp overrides. -/
structure SkillEntry where
  skill_name : String
  improvement : String
  provider : Option String := none
  model : Option String := none
  timestamp : Option Nat := none
deriving DecidableEq, Repr

/-- One benchmarks document: document-level provider/model/timestamp and
the skill entries. -/
structure Benchmark where
  provider : Option String := none
  model : Option String := none
  timestamp : Option Nat := none
  skills : List SkillEntry := []
deriving DecidableEq, Repr

/-- Step 1 of `renderTable`: a skill entry inherits missing fields from
its document (`s.provider || b.provider || "unknown"`, etc.). -/
def resolveRun (b : Benchmark) (s : SkillEntry) : RunRow :=
  ⟨s.skill_name,
   s.provider.getD (b.provider.getD "unknown"),
   s.model.getD (b.model.getD "unknown"),
   s.timestamp.getD (b.timestamp.getD 0),
   s.improvement⟩

/-- Step 1 of `renderTable`: flatten all documents into `allRuns`. -/
def flattenRuns (benchmarks : List Benchmark) : List RunRow :=
  benchmarks.flatMap (fun b => b.skills.map (resolveRun b))

/-- Stable insertion into a list sorted by timestamp descending: the
inserted row goes in front of every row whose timestamp is not larger,
matching the stable `sort((a, b) => dateB - dateA)` of `app.js`. -/
def insertDesc (r : RunRow) : List RunRow → List RunRow
  | [] => [r]
  | x :: xs =>
    if x.timestamp ≤ r.timestamp then r :: x :: xs else x :: insertDesc r xs

/-- Step 2 of `renderTable`: stable sort by timestamp descending. -/
def sortDesc : List RunRow → List RunRow
  | [] => []
  | r :: rest => insertDesc r (sortDesc rest)

/-- ASCII model of JavaScript `toLowerCase` on one character. -/
def lowerChar (c : Char) : Char :=
  if c.isUpper then Char.ofNat (c.toNat + 32) else c

/-- ASCII model of JavaScript `toLowerCase` on a string. -/
def lowerStr (s : String) : String :=
  String.mk (s.toList.map lowerChar)

/-- The provider/model/improvement filter conjunction of `renderTable`
(an empty filter string means the filter is off). -/
def matchesFilters (pF mF iF : String) (r : RunRow) : Bool :=
  (pF == "" || lowerStr r.provider == pF) &&
  (mF == "" || lowerStr r.model == mF) &&
  (iF == "" || lowerStr r.improvement == iF)

/-- The deduplication key of `renderTable`:
`skill_name|provider|model`. -/
def runKey (r : RunRow) : String :=
  r.skill_name ++ "|" ++ r.provider ++ "|" ++ r.model

/-- Step 3 of `renderTable` without a skill filter: walk the sorted list,
skip rows whose key was already displayed, and mark a key as seen only
when its row also passes the filters (exactly the `seen.add` placement in
`app.js`). -/
def dedupRows (pF mF iF : String) : List RunRow → List String → List RunRow
  | [], _ => []
  | r :: rest, seen =>
    if seen.contains (runKey r) then dedupRows pF mF iF rest seen
    else if matchesFilters pF mF iF r then
      r :: dedupRows pF mF iF rest (runKey r :: seen)
    else dedupRows pF mF iF rest seen

/-- The visible rows of `renderTable`, given the four (pre-lowercased)
filter values: with a skill filter, every matching historical run; without
one, the deduplicated latest-run view. -/
def renderRows (benchmarks : List Benchmark) (pF mF sF iF : String) :
    List RunRow :=
  let allRuns := sortDesc (flattenRuns benchmarks)
  if sF == "" then dedupRows pF mF iF allRuns []
  else allRuns.filter (fun r => lowerStr r.skill_name == sF && matchesFilters pF mF iF r)

/-! ## Startup credential validation -/

/-- Environment validation of `ci/orchestrate_evaluations.sh`: missing
`GITHUB_TOKEN` exits 1; missing `OLLAMA_API_KEY` only prints a warning.
Returns the exit, if any, and the printed diagnostic lines. -/
def orchestrateEnvCheck (github ollama : Bool) : Option Nat × List String :=
  if !github then (some 1, ["❌ Error: GITHUB_TOKEN not set"])
  else if !ollama then
    (none, ["⚠ Warning: OLLAMA_API_KEY not set (required for Ollama)"])
  else (none, [])

/-- The `OLLAMA_API_KEY` check of `ci/validate_skills.sh`: only the
`ollama` provider branch checks the key, exiting 1 before the evaluator
runs; other providers never check it. -/
def validateSkillsKeyExit (provider : String) (ollamaKey : Bool) : Option Nat :=
  if provider == "ollama" && !ollamaKey then some 1 else none

/-- The `GITHUB_TOKEN` handling of `ci/validate_skills.sh`: presence or
absence only selects a diagnostic line, never an exit. -/
def validateSkillsGithubLine (github : Bool) : String :=
  if github then "✓ GitHub tokens exported to environment"
  else "⚠ Warning: GITHUB_TOKEN not set in environment"

/-- Demonstration collection: two runs of the same
(skill, provider, model) triple, the newer one with improvement `no`,
the older one with improvement `yes`. -/
def bmDemo : List Benchmark :=
  [{ provider := some "ollama", model := some "m1", timestamp := some 2,
     skills := [{ skill_name := "sk", improvement := "no" }] },
   { provider := some "ollama", model := some "m1", timestamp := some 1,
     skills := [{ skill_name := "sk", improvement := "yes" }] }]

/-! ## Helper lemmas -/

lemma option_any_ne_false_iff (o : Option Nat) :
    o.any (fun n => n != 0) = false ↔ o.all (fun n => n == 0) = true := by
  cases o <;> simp [Option.any, Option.all]

lemma failedCount_eq_zero_iff (dirs : List ResultDir) :
    failedCount dirs = 0 ↔ allRecordedZero dirs = true := by
  induction dirs with
  | nil => simp [failedCount, allRecordedZero]
  | cons d rest ih =>
    rw [failedCount, allRecordedZero] at *
    rw [List.filter_cons, List.all_cons]
    cases h : d.exit_code.any (fun n => n != 0) with
    | false =>
      simp only [Bool.false_eq_true, if_false]
      rw [Bool.and_eq_true, ih]
      have := (option_any_ne_false_iff d.exit_code).mp h
      simp [this]
    | true =>
      simp only [if_pos rfl]
      constructor
      · intro hlen; simp at hlen
      · intro hall
        rw [Bool.and_eq_true] at hall
        have := (option_any_ne_false_iff d.exit_code).mpr hall.1
        rw [this] at h
        cases h

lemma bandRank_cases (a : String) (ra : Nat) (h : bandRank a = some ra) :
    (a = "vague" ∧ ra = 0) ∨ (a = "regular" ∧ ra = 1) ∨
    (a = "good" ∧ ra = 2) ∨ (a = "outstanding" ∧ ra = 3) := by
  rw [bandRank] at h
  by_cases h1 : (a == "vague") = true
  · rw [if_pos h1] at h
    injection h with h'
    exact Or.inl ⟨eq_of_beq h1, h'.symm⟩
  · rw [if_neg h1] at h
    by_cases h2 : (a == "regular") = true
    · rw [if_pos h2] at h
      injection h with h'
      exact Or.inr (Or.inl ⟨eq_of_beq h2, h'.symm⟩)
    · rw [if_neg h2] at h
      by_cases h3 : (a == "good") = true
      · rw [if_pos h3] at h
        injection h with h'
        exact Or.inr (Or.inr (Or.inl ⟨eq_of_beq h3, h'.symm⟩))
      · rw [if_neg h3] at h
        by_cases h4 : (a == "outstanding") = true
        · rw [if_pos h4] at h
          injection h with h'
          exact Or.inr (Or.inr (Or.inr ⟨eq_of_beq h4, h'.symm⟩))
        · rw [if_neg h4] at h
          cases h

lemma seqExecuted_of_all_ok (pre : List UnitSpec) (f : UnitSpec)
    (post : List UnitSpec) (hpre : ∀ u ∈ pre, runEvaluationExit u.evalExit = 0)
    (hf : runEvaluationExit f.evalExit ≠ 0) :
    seqExecuted (pre ++ f :: post) = pre ++ [f] := by
  induction pre with
  | nil => simp [seqExecuted, hf]
  | cons u pre' ih =>
    have hu : runEvaluationExit u.evalExit = 0 := hpre u (by simp)
    have : seqExecuted (pre' ++ f :: post) = pre' ++ [f] :=
      ih (fun v hv => hpre v (by simp [hv]))
    simp [seqExecuted, hu, this]

lemma replaceChar_append (c : Char) (rep l1 l2 : List Char) :
    replaceChar c rep (l1 ++ l2) = replaceChar c rep l1 ++ replaceChar c rep l2 := by
  simp [replaceChar]

lemma escapeChain_append (l1 l2 : List Char) :
    escapeChain (l1 ++ l2) = escapeChain l1 ++ escapeChain l2 := by
  simp [escapeChain, replaceChar_append]

lemma escapeChain_singleton (a : Char) : escapeChain [a] = escChar a := by
  by_cases h1 : (a == '&') = true
  · have := eq_of_beq h1; subst this; decide
  by_cases h2 : (a == '<') = true
  · have := eq_of_beq h2; subst this; decide
  by_cases h3 : (a == '>') = true
  · have := eq_of_beq h3; subst this; decide
  by_cases h4 : (a == quotChar) = true
  · have := eq_of_beq h4; subst this; decide
  by_cases h5 : (a == aposChar) = true
  · have := eq_of_beq h5; subst this; decide
  simp only [beq_iff_eq] at h1 h2 h3 h4 h5
  simp [escapeChain, replaceChar, escChar, h1, h2, h3, h4, h5]

lemma escapeChain_eq_flatMap (l : List Char) : escapeChain l = l.flatMap escChar := by
  induction l with
  | nil => rfl
  | cons a l ih =>
    have h1 : escapeChain (a :: l) = escapeChain [a] ++ escapeChain l := by
      have h0 : a :: l = [a] ++ l := rfl
      rw [h0, escapeChain_append]
    rw [h1, ih, List.flatMap_cons, escapeChain_singleton]

lemma escChar_safe (a c : Char) (hc : c ∈ escChar a) :
    c ≠ '<' ∧ c ≠ '>' ∧ c ≠ quotChar ∧ c ≠ aposChar := by
  by_cases h1 : (a == '&') = true
  · have := eq_of_beq h1; subst this
    simp [escChar] at hc
    rcases hc with rfl | rfl | rfl | rfl | rfl <;> decide
  by_cases h2 : (a == '<') = true
  · have := eq_of_beq h2; subst this
    simp [escChar] at hc
    rcases hc with rfl | rfl | rfl | rfl <;> decide
  by_cases h3 : (a == '>') = true
  · have := eq_of_beq h3; subst this
    simp [escChar] at hc
    rcases hc with rfl | rfl | rfl | rfl <;> decide
  by_cases h4 : (a == quotChar) = true
  · have := eq_of_beq h4; subst this
    rw [show escChar quotChar = "&quot;".toList from by decide] at hc
    simp at hc
    rcases hc with rfl | rfl | rfl | rfl | rfl | rfl <;> decide
  by_cases h5 : (a == aposChar) = true
  · have := eq_of_beq h5; subst this
    rw [show escChar aposChar = "&#039;".toList from by decide] at hc
    simp at hc
    rcases hc with rfl | rfl | rfl | rfl | rfl | rfl <;> decide
  · simp only [escChar, if_neg h1, if_neg h2, if_neg h3, if_neg h4, if_neg h5,
      List.mem_singleton] at hc
    subst hc
    refine ⟨fun e => h2 ?_, fun e => h3 ?_, fun e => h4 ?_, fun e => h5 ?_⟩ <;>
      exact (beq_iff_eq).mpr e

lemma escapeHtml_toList (t : String) :
    (escapeHtml t).toList = t.toList.flatMap escChar := by
  rw [escapeHtml]
  by_cases h : (t == "") = true
  · have := eq_of_beq h; subst this; rfl
  · rw [if_neg h]
    show escapeChain t.toList = t.toList.flatMap escChar
    exact escapeChain_eq_flatMap _

lemma mem_insertDesc (r x : RunRow) (l : List RunRow) :
    x ∈ insertDesc r l ↔ x = r ∨ x ∈ l := by
  induction l with
  | nil => simp [insertDesc]
  | cons y ys ih =>
    rw [insertDesc]
    by_cases h : y.timestamp ≤ r.timestamp
    · simp [h]
    · simp only [if_neg h, List.mem_cons, ih]
      tauto

lemma mem_sortDesc (x : RunRow) (l : List RunRow) : x ∈ sortDesc l ↔ x ∈ l := by
  induction l with
  | nil => simp [sortDesc]
  | cons y ys ih => simp [sortDesc, mem_insertDesc, ih]

lemma insertDesc_sorted (r : RunRow) (l : List RunRow)
    (h : l.Pairwise (fun a b => b.timestamp ≤ a.timestamp)) :
    (insertDesc r l).Pairwise (fun a b => b.timestamp ≤ a.timestamp) := by
  induction l with
  | nil => simp [insertDesc]
  | cons y ys ih =>
    rw [insertDesc]
    rcases List.pairwise_cons.mp h with ⟨hy, hys⟩
    by_cases hc : y.timestamp ≤ r.timestamp
    · rw [if_pos hc]
      refine List.pairwise_cons.mpr ⟨?_, h⟩
      intro b hb
      rcases List.mem_cons.mp hb with rfl | hb'
      · exact hc
      · exact le_trans (hy b hb') hc
    · rw [if_neg hc]
      refine List.pairwise_cons.mpr ⟨?_, ih hys⟩
      intro b hb
      rcases (mem_insertDesc r b ys).mp hb with rfl | hb'
      · exact le_of_not_le hc
      · exact hy b hb'

lemma sortDesc_sorted (l : List RunRow) :
    (sortDesc l).Pairwise (fun a b => b.timestamp ≤ a.timestamp) := by
  induction l with
  | nil => simp [sortDesc]
  | cons y ys ih => exact insertDesc_sorted y _ ih

lemma dedupRows_key_not_seen (pF mF iF : String) :
    ∀ (l : List RunRow) (seen : List String) (r : RunRow),
      r ∈ dedupRows pF mF iF l seen → seen.contains (runKey r) = false := by
  intro l
  induction l with
  | nil =>
    intro seen r h
    simp [dedupRows] at h
  | cons x rest ih =>
    intro seen r h
    rw [dedupRows] at h
    by_cases hx : seen.contains (runKey x) = true
    · rw [if_pos hx] at h
      exact ih seen r h
    · rw [if_neg hx] at h
      by_cases hm : matchesFilters pF mF iF x = true
      · rw [if_pos hm] at h
        rcases List.mem_cons.mp h with rfl | h'
        · cases hcc : seen.contains (runKey r) with
          | false => rfl
          | true => exact absurd hcc hx
        · have h2 := ih _ r h'
          simp [List.contains_cons] at h2
          simpa using h2.2
      · rw [if_neg hm] at h
        exact ih seen r h

lemma dedupRows_sub (pF mF iF : String) :
    ∀ (l : List RunRow) (seen : List String) (r : RunRow),
      r ∈ dedupRows pF mF iF l seen →
        r ∈ l ∧ matchesFilters pF mF iF r = true := by
  intro l
  induction l with
  | nil =>
    intro seen r h
    simp [dedupRows] at h
  | cons x rest ih =>
    intro seen r h
    rw [dedupRows] at h
    by_cases hx : seen.contains (runKey x) = true
    · rw [if_pos hx] at h
      rcases ih seen r h with ⟨h1, h2⟩
      exact ⟨List.mem_cons_of_mem x h1, h2⟩
    · rw [if_neg hx] at h
      by_cases hm : matchesFilters pF mF iF x = true
      · rw [if_pos hm] at h
        rcases List.mem_cons.mp h with rfl | h'
        · exact ⟨List.mem_cons_self r rest, hm⟩
        · rcases ih _ r h' with ⟨h1, h2⟩
          exact ⟨List.mem_cons_of_mem x h1, h2⟩
      · rw [if_neg hm] at h
        rcases ih seen r h with ⟨h1, h2⟩
        exact ⟨List.mem_cons_of_mem x h1, h2⟩

lemma dedupRows_max (pF mF iF : String) :
    ∀ (l : List RunRow) (seen : List String) (r : RunRow),
      l.Pairwise (fun a b => b.timestamp ≤ a.timestamp) →
      r ∈ dedupRows pF mF iF l seen →
      ∀ r2 ∈ l, runKey r2 = runKey r → matchesFilters pF mF iF r2 = true →
        r2.timestamp ≤ r.timestamp := by
  intro l
  induction l with
  | nil =>
    intro seen r _ h
    simp [dedupRows] at h
  | cons x rest ih =>
    intro seen r hs h r2 hr2 hkey hm2
    rcases List.pairwise_cons.mp hs with ⟨hx_ge, hrest⟩
    rw [dedupRows] at h
    by_cases hx : seen.contains (runKey x) = true
    · rw [if_pos hx] at h
      rcases List.mem_cons.mp hr2 with rfl | hr2'
      · have hns := dedupRows_key_not_seen pF mF iF rest seen r h
        rw [← hkey] at hns
        rw [hns] at hx
        cases hx
      · exact ih seen r hrest h r2 hr2' hkey hm2
    · rw [if_neg hx] at h
      by_cases hm : matchesFilters pF mF iF x = true
      · rw [if_pos hm] at h
        rcases List.mem_cons.mp h with rfl | h'
        · rcases List.mem_cons.mp hr2 with rfl | hr2'
          · exact le_refl _
          · exact hx_ge r2 hr2'
        · rcases List.mem_cons.mp hr2 with rfl | hr2'
          · have hns := dedupRows_key_not_seen pF mF iF rest (runKey r2 :: seen) r h'
            simp [List.contains_cons] at hns
            exact absurd hkey.symm hns.1
          · exact ih (runKey x :: seen) r hrest h' r2 hr2' hkey hm2
      · rw [if_neg hm] at h
        rcases List.mem_cons.mp hr2 with rfl | hr2'
        · exact absurd hm2 hm
        · exact ih seen r hrest h r2 hr2' hkey hm2

lemma dedupRows_keys_pairwise (pF mF iF : String) :
    ∀ (l : List RunRow) (seen : List String),
      (dedupRows pF mF iF l seen).Pairwise (fun a b => runKey a ≠ runKey b) := by
  intro l
  induction l with
  | nil => intro seen; simp [dedupRows]
  | cons x rest ih =>
    intro seen
    rw [dedupRows]
    by_cases hx : seen.contains (runKey x) = true
    · rw [if_pos hx]; exact ih seen
    · rw [if_neg hx]
      by_cases hm : matchesFilters pF mF iF x = true
      · rw [if_pos hm]
        refine List.pairwise_cons.mpr ⟨?_, ih _⟩
        intro b hb
        have hns := dedupRows_key_not_seen pF mF iF rest (runKey x :: seen) b hb
        simp [List.contains_cons] at hns
        exact fun e => hns.1 e.symm
      · rw [if_neg hm]; exact ih seen

/-! ## Claim theorems -/

/-- Claim C1 (code bug): the claim is right and the code is wrong: `run_evaluation.sh`
means to save the evaluator's exit code for consolidation, but under
`set -e` a failing (or killed) evaluation aborts the script before the
`exit_code` write, so the dead unit's directory has no recorded exit
code, `consolidate_results.sh` skips it silently, it is not marked
FAILED, and consolidation even exits 0.  Concretely: unit ollama/m1's
evaluation exits 1 while copilot/m2 passes — the consolidated status
block contains only the surviving unit and the failure count stays 0. -/
theorem exit_code_never_recorded_on_failure :
    runEvaluationRecord (some 1) = none ∧
    runEvaluationRecord none = none ∧
    (unitDir ⟨"ollama", "m1", some 1⟩).exit_code = none ∧
    consolidateStatusLines
      [unitDir ⟨"ollama", "m1", some 1⟩, unitDir ⟨"copilot", "m2", some 0⟩] =
      ["✅ copilot/m2 - PASSED"] ∧
    failedCount
      [unitDir ⟨"ollama", "m1", some 1⟩, unitDir ⟨"copilot", "m2", some 0⟩] = 0 ∧
    consolidateExit
      [unitDir ⟨"ollama", "m1", some 1⟩, unitDir ⟨"copilot", "m2", some 0⟩] = 0 := by
  decide

/-- Counterexample to claim C2: the claimed equivalence "orchestration exits 0
iff every recorded exit code is 0" is false: a sequential run whose
single unit's evaluation exits 1 records no exit code at all (so every
recorded exit code is vacuously 0), yet the orchestrator exits 1. -/
theorem orchestration_exit_iff_refuted :
    allRecordedZero ([⟨"ollama", "m1", some 1⟩].map unitDir) = true ∧
    orchestrateSeqExit [⟨"ollama", "m1", some 1⟩] = 1 ∧
    ¬(orchestrateSeqExit [⟨"ollama", "m1", some 1⟩] = 0 ↔
      allRecordedZero ([⟨"ollama", "m1", some 1⟩].map unitDir) = true) := by
  refine ⟨by decide, by decide, ?_⟩
  intro h
  have := h.mpr (by decide)
  cases this

/-- Claim C2 as amended: the consolidation step exits 0 iff every recorded exit
code in a non-empty results tree is 0, and prints the failure count when
some recorded code is non-zero; but at the orchestration level the
equivalence breaks both ways: a parallel run whose unit failed exits 0
(its exit code was never recorded, C1), and a sequential run aborts with
the failing unit's code before consolidation. -/
theorem consolidation_exit_and_orchestrate_exits :
    (∀ dirs : List ResultDir, dirs ≠ [] →
      (consolidateExit dirs = 0 ↔ allRecordedZero dirs = true)) ∧
    (∀ dirs : List ResultDir, 0 < failedCount dirs →
      failLine dirs ∈ consolidateOutput dirs) ∧
    orchestrateParExit [⟨"ollama", "m1", some 1⟩, ⟨"copilot", "m2", some 0⟩] = 0 ∧
    orchestrateSeqExit [⟨"ollama", "m1", some 1⟩, ⟨"copilot", "m2", some 0⟩] = 1 := by
  refine ⟨?_, ?_, by decide, by decide⟩
  · intro dirs h
    cases dirs with
    | nil => exact absurd rfl h
    | cons d rest =>
      rw [consolidateExit]
      simp only [List.isEmpty_cons, Bool.false_eq_true, if_false]
      by_cases hf : failedCount (d :: rest) > 0
      · rw [if_pos hf]
        constructor
        · intro h10; cases h10
        · intro hall
          have h0 := (failedCount_eq_zero_iff _).mpr hall
          omega
      · rw [if_neg hf]
        have h0 : failedCount (d :: rest) = 0 := by omega
        rw [← failedCount_eq_zero_iff, h0]
  · intro dirs h
    rw [consolidateOutput, if_pos h]
    simp

/-- Witness for claim C2: the consolidation equivalence and the failure-count line
at concrete result trees. -/
theorem consolidation_exit_witness :
    consolidateExit [⟨"p/m", some 0, none⟩] = 0 ∧
    failLine [⟨"p/m", some 2, none⟩] ∈ consolidateOutput [⟨"p/m", some 2, none⟩] := by
  refine ⟨?_, ?_⟩
  · exact (consolidation_exit_and_orchestrate_exits.1 [⟨"p/m", some 0, none⟩]
      (by simp)).mpr (by decide)
  · exact consolidation_exit_and_orchestrate_exits.2.1 [⟨"p/m", some 2, none⟩]
      (by decide)

/-- Counterexample to claim C3: a file written into `tests/results` by a first
orchestrator run is gone after a second run: the orchestrator starts
every run with `rm -rf tests/results/*`, so history is not append-only
and prior result documents do not survive. -/
theorem second_run_deletes_first_run_results :
    (("tests/results/ollama/m1/exit_code", "0") ∈
      runResultsStore [⟨"ollama", "m1", some 0⟩] true []) ∧
    (("tests/results/ollama/m1/exit_code", "0") ∉
      runResultsStore [⟨"copilot", "m2", some 0⟩] true
        (runResultsStore [⟨"ollama", "m1", some 0⟩] true [])) := by
  decide

/-- Claim C3 as amended: the directory tests/results is per-run scratch, not history: the
contents after a run do not depend on the previous contents at all
(everything is removed by `rm -rf tests/results/*` first), and a
successful unit's files all come from the current run. -/
theorem results_store_ignores_history :
    (∀ (units : List UnitSpec) (par : Bool) (prev : List (String × String)),
      runResultsStore units par prev = runResultsStore units par []) ∧
    (∀ (units : List UnitSpec) (prev : List (String × String)) (u : UnitSpec),
      u ∈ units → ∀ f ∈ unitWrites u, f ∈ runResultsStore units true prev) := by
  constructor
  · intro units par prev
    rfl
  · intro units prev u hu f hf
    rw [runResultsStore]
    simp only [if_pos rfl]
    exact List.mem_append_left _ (List.mem_flatMap.mpr ⟨u, hu, hf⟩)

/-- Witness for claim C3: a successful unit's `exit_code` file lands in the fresh
store even when the previous store was non-empty. -/
theorem results_store_witness :
    ("tests/results/ollama/m1/exit_code", "0") ∈
      runResultsStore [⟨"ollama", "m1", some 0⟩] true [("tests/results/old.log", "x")] := by
  exact results_store_ignores_history.2 [⟨"ollama", "m1", some 0⟩]
    [("tests/results/old.log", "x")] ⟨"ollama", "m1", some 0⟩ (by decide) _ (by decide)

/-- Counterexample to claim C4: in sequential mode a failing unit aborts its
siblings: with units ollama/m1 (evaluation exits 1) and copilot/m2
(would exit 0), only the failing unit is ever executed — copilot/m2 never
runs, contradicting the claim that both scheduling modes run every
remaining unit to completion. -/
theorem sequential_failure_skips_sibling :
    seqExecuted [⟨"ollama", "m1", some 1⟩, ⟨"copilot", "m2", some 0⟩] =
      [⟨"ollama", "m1", some 1⟩] ∧
    (⟨"copilot", "m2", some 0⟩ : UnitSpec) ∉
      seqExecuted [⟨"ollama", "m1", some 1⟩, ⟨"copilot", "m2", some 0⟩] := by
  decide

/-- Claim C4 as amended: in parallel mode every started unit is awaited with its
exit status, and the wait-loop failure counter is zero exactly when every
unit's script exited 0; in sequential mode `set -e` stops the run at the
first failing unit — the units before it and the failing unit itself run,
the units after it never do. -/
theorem scheduling_isolation :
    (∀ (units : List UnitSpec) (u : UnitSpec), u ∈ units →
      (u, runEvaluationExit u.evalExit) ∈ parResults units) ∧
    (∀ units : List UnitSpec,
      parFailedCount units = 0 ↔ ∀ u ∈ units, runEvaluationExit u.evalExit = 0) ∧
    (∀ (pre : List UnitSpec) (f : UnitSpec) (post : List UnitSpec),
      (∀ u ∈ pre, runEvaluationExit u.evalExit = 0) →
      runEvaluationExit f.evalExit ≠ 0 →
      seqExecuted (pre ++ f :: post) = pre ++ [f]) := by
  refine ⟨?_, ?_, seqExecuted_of_all_ok⟩
  · intro units u hu
    exact List.mem_map.mpr ⟨u, hu, rfl⟩
  · intro units
    rw [parFailedCount, List.length_eq_zero, List.filter_eq_nil_iff]
    constructor
    · intro h u hu
      have := h u hu
      simpa using this
    · intro h u hu
      simp [h u hu]

/-- Witness for claim C4: the sequential abort shape at a concrete matrix — one
passing unit, then a failing one, then a never-run sibling. -/
theorem scheduling_isolation_witness :
    seqExecuted
      [⟨"a", "m0", some 0⟩, ⟨"ollama", "m1", some 1⟩, ⟨"copilot", "m2", some 0⟩] =
      [⟨"a", "m0", some 0⟩, ⟨"ollama", "m1", some 1⟩] ∧
    (⟨"a", "m0", some 0⟩, 0) ∈ parResults [⟨"a", "m0", some 0⟩] := by
  constructor
  · exact scheduling_isolation.2.2 [⟨"a", "m0", some 0⟩] ⟨"ollama", "m1", some 1⟩
      [⟨"copilot", "m2", some 0⟩] (by decide) (by decide)
  · exact scheduling_isolation.1 [⟨"a", "m0", some 0⟩] ⟨"a", "m0", some 0⟩ (by decide)

/-- Counterexample to claim C6: with `GITHUB_TOKEN` present and `OLLAMA_API_KEY`
absent, the orchestrator's environment validation does not terminate the
run: it only prints a warning and continues, even when the ollama
provider is the one selected — the claim's required fatal exit does not
happen. -/
theorem missing_ollama_key_only_warns :
    (orchestrateEnvCheck true false).1 = none ∧
    (orchestrateEnvCheck true false).2 =
      ["⚠ Warning: OLLAMA_API_KEY not set (required for Ollama)"] := by
  decide

/-- Claim C6 as amended: a missing `GITHUB_TOKEN` is a startup-fatal error (exit
1) in the orchestrator, but a missing `OLLAMA_API_KEY` is only a warning
there; the fatal `OLLAMA_API_KEY` check lives in `validate_skills.sh`,
only on its ollama branch and before the evaluator runs — while that
script treats a missing `GITHUB_TOKEN` as a mere warning. -/
theorem credential_check_behavior :
    (∀ ol : Bool, (orchestrateEnvCheck false ol).1 = some 1) ∧
    (∀ ol : Bool, (orchestrateEnvCheck true ol).1 = none) ∧
    validateSkillsKeyExit "ollama" false = some 1 ∧
    validateSkillsKeyExit "ollama" true = none ∧
    validateSkillsKeyExit "copilot" false = none ∧
    validateSkillsGithubLine false = "⚠ Warning: GITHUB_TOKEN not set in environment" := by
  decide

/-- Claim C5: the two specified example verdicts hold, and in general every
sub-check of `verify` is evaluated even after an earlier one fails: each
check kind appears in the violation list exactly when that check fails,
independently of the other checks, and the verdict passes exactly when
the violation list is empty. -/
theorem verify_examples_and_complete_violations :
    verify "try \x7b save() \x7d finally \x7b close() \x7d"
      { includes := ["try"], excludes := ["catch(e)\x7b\x7d"], min_length := some 20 } =
      ⟨true, []⟩ ∧
    verify "try \x7b save() \x7d catch(e)\x7b\x7d"
      { includes := ["try"], excludes := ["catch(e)\x7b\x7d"], min_length := some 20 } =
      ⟨false, ["excludes"]⟩ ∧
    ∀ (response : String) (s : ExpectationSpec),
      (("includes" ∈ (verify response s).violations ↔
        s.includes.all (fun x => strContains response x) = false) ∧
      ("excludes" ∈ (verify response s).violations ↔
        s.excludes.all (fun x => !strContains response x) = false) ∧
      ("regex" ∈ (verify response s).violations ↔
        s.rx.all (fun p => p response) = false) ∧
      ("min_length" ∈ (verify response s).violations ↔
        s.min_length.all (fun n => decide (n ≤ response.length)) = false) ∧
      ("max_length" ∈ (verify response s).violations ↔
        s.max_length.all (fun n => decide (response.length ≤ n)) = false)) ∧
      ((verify response s).pass = true ↔ (verify response s).violations = []) := by
  refine ⟨by decide, by decide, ?_⟩
  intro response s
  cases h1 : s.includes.all (fun x => strContains response x) <;>
  cases h2 : s.excludes.all (fun x => !strContains response x) <;>
  cases h3 : s.rx.all (fun p => p response) <;>
  cases h4 : s.min_length.all (fun n => decide (n ≤ response.length)) <;>
  cases h5 : s.max_length.all (fun n => decide (response.length ≤ n)) <;>
  simp [verify, h1, h2, h3, h4, h5]

/-- Claim C7: a record whose `judge_error` flag is true always renders the
verdict `JUDGE ERROR` and the score `N/A` — never `EQUAL`, `BETTER`,
`WORSE` or a numeric score — while a record with `judge_error` false
always takes the Better/Worse/Equal path and never shows `JUDGE ERROR`. -/
theorem judge_error_rendering : ∀ r : SkillRecord,
    (r.judge_error = true →
      displayedVerdict r = "JUDGE ERROR" ∧ displayedScore r = "N/A" ∧
      displayedVerdict r ≠ "EQUAL" ∧ displayedVerdict r ≠ "BETTER" ∧
      displayedVerdict r ≠ "WORSE") ∧
    (r.judge_error = false →
      (displayedVerdict r = "BETTER" ∨ displayedVerdict r = "WORSE" ∨
        displayedVerdict r = "EQUAL") ∧ displayedVerdict r ≠ "JUDGE ERROR") := by
  intro r
  obtain ⟨je, j⟩ := r
  cases je with
  | false =>
    constructor
    · intro h
      cases h
    · intro _
      cases hB : ((j.getD {}).overall_better.getD "Equal") == "B" <;>
      cases hA : ((j.getD {}).overall_better.getD "Equal") == "A" <;>
      simp [displayedVerdict, hB, hA]
  | true =>
    constructor
    · intro _
      refine ⟨rfl, rfl, ?_, ?_, ?_⟩
      · show ("JUDGE ERROR" : String) ≠ "EQUAL"
        decide
      · show ("JUDGE ERROR" : String) ≠ "BETTER"
        decide
      · show ("JUDGE ERROR" : String) ≠ "WORSE"
        decide
    · intro h
      cases h

/-- Witness for claim C7: the two rendering paths at concrete records. -/
theorem judge_error_rendering_witness :
    (displayedVerdict ⟨true, none⟩ = "JUDGE ERROR" ∧
      displayedScore ⟨true, none⟩ = "N/A") ∧
    displayedVerdict ⟨false, none⟩ ≠ "JUDGE ERROR" := by
  refine ⟨⟨?_, ?_⟩, ?_⟩
  · exact ((judge_error_rendering ⟨true, none⟩).1 rfl).1
  · exact ((judge_error_rendering ⟨true, none⟩).1 rfl).2.1
  · exact ((judge_error_rendering ⟨false, none⟩).2 rfl).2

/-- Claim C8: the four judge bands map to 1, 2, 3 and 4 stars, the star count
is strictly monotone in the band order vague < regular < good <
outstanding, and any string outside the four bands gets the empty star
string and the fallback colour `secondary`. -/
theorem rating_bands_monotone :
    ((getRatingStars "vague").length = 1 ∧ (getRatingStars "regular").length = 2 ∧
      (getRatingStars "good").length = 3 ∧ (getRatingStars "outstanding").length = 4) ∧
    (∀ (a b : String) (ra rb : Nat), bandRank a = some ra → bandRank b = some rb →
      (ra < rb ↔ (getRatingStars a).length < (getRatingStars b).length)) ∧
    (∀ s : String, bandRank s = none →
      getRatingStars s = "" ∧ getRatingColor s = "secondary") := by
  refine ⟨by decide, ?_, ?_⟩
  · intro a b ra rb ha hb
    rcases bandRank_cases a ra ha with ⟨rfl, rfl⟩ | ⟨rfl, rfl⟩ | ⟨rfl, rfl⟩ | ⟨rfl, rfl⟩ <;>
    rcases bandRank_cases b rb hb with ⟨rfl, rfl⟩ | ⟨rfl, rfl⟩ | ⟨rfl, rfl⟩ | ⟨rfl, rfl⟩ <;>
    decide
  · intro s h
    rw [bandRank] at h
    by_cases h1 : (s == "vague") = true
    · rw [if_pos h1] at h; cases h
    · rw [if_neg h1] at h
      by_cases h2 : (s == "regular") = true
      · rw [if_pos h2] at h; cases h
      · rw [if_neg h2] at h
        by_cases h3 : (s == "good") = true
        · rw [if_pos h3] at h; cases h
        · rw [if_neg h3] at h
          by_cases h4 : (s == "outstanding") = true
          · rw [if_pos h4] at h; cases h
          · constructor <;> simp [getRatingStars, getRatingColor, h1, h2, h3, h4]

/-- Witness for claim C8: monotonicity instantiated at the extreme bands, and the
fallback at a string outside the bands. -/
theorem rating_bands_monotone_witness :
    (getRatingStars "vague").length < (getRatingStars "outstanding").length ∧
    getRatingStars "junk" = "" ∧ getRatingColor "junk" = "secondary" := by
  refine ⟨?_, ?_, ?_⟩
  · exact (rating_bands_monotone.2.1 "vague" "outstanding" 0 3 (by decide) (by decide)).mp
      (by decide)
  · exact (rating_bands_monotone.2.2 "junk" (by decide)).1
  · exact (rating_bands_monotone.2.2 "junk" (by decide)).2

/-- Claim C9: the function escapeHtml maps null/undefined/empty input to the empty
string; on any string, each character is replaced by its HTML entity
(ampersand first, so entities are never double-escaped into new
specials); and the output never contains `<`, `>`, a double quote or an
apostrophe. -/
theorem escapeHtml_output_safe :
    escapeHtmlOpt none = "" ∧ escapeHtmlOpt (some "") = "" ∧
    (∀ t : String, (escapeHtml t).toList = t.toList.flatMap escChar) ∧
    (∀ (t : String) (c : Char), c ∈ (escapeHtml t).toList →
      c ≠ '<' ∧ c ≠ '>' ∧ c ≠ quotChar ∧ c ≠ aposChar) := by
  refine ⟨rfl, rfl, escapeHtml_toList, ?_⟩
  intro t c hc
  rw [escapeHtml_toList] at hc
  obtain ⟨a, _, hca⟩ := List.mem_flatMap.mp hc
  exact escChar_safe a c hca

/-- Witness for claim C9: safety of a character of a concretely escaped string. -/
theorem escapeHtml_output_safe_witness :
    ('a' ≠ '<' ∧ 'a' ≠ '>' ∧ 'a' ≠ quotChar ∧ 'a' ≠ aposChar) ∧
    escapeHtml "a<b" = "a&lt;b" := by
  refine ⟨?_, by decide⟩
  exact escapeHtml_output_safe.2.2.2 "a<b" 'a' (by decide)

/-- Counterexample to claim C10: with an improvement filter set (and no skill
filter), the displayed row for a triple is not the run with the most
recent timestamp among all runs for that triple: in `bmDemo` the triple
(sk, ollama, m1) has a run with timestamp 2, yet the table shows its
timestamp-1 run, because the filter is applied before a key is marked as
seen. -/
theorem latest_run_dedup_refuted :
    renderRows bmDemo "" "" "" "yes" = [⟨"sk", "ollama", "m1", 1, "yes"⟩] ∧
    (⟨"sk", "ollama", "m1", 2, "no"⟩ : RunRow) ∈ flattenRuns bmDemo ∧
    runKey ⟨"sk", "ollama", "m1", 2, "no"⟩ = runKey ⟨"sk", "ollama", "m1", 1, "yes"⟩ ∧
    (1 : Nat) < 2 := by
  decide

/-- Claim C10 as amended: without a skill filter the table shows at most one row
per (skill, provider, model) key; each displayed row matches the active
filters and is a real run whose timestamp is maximal among the *filter-
matching* runs of its key (with an improvement filter this may be older
than the key's most recent run).  With a skill filter, every flattened
run matching the skill and the remaining filters is displayed. -/
theorem renderTable_dedup_properties :
    (∀ (bm : List Benchmark) (pF mF iF : String),
      (renderRows bm pF mF "" iF).Pairwise (fun a b => runKey a ≠ runKey b)) ∧
    (∀ (bm : List Benchmark) (pF mF iF : String) (r : RunRow),
      r ∈ renderRows bm pF mF "" iF →
        matchesFilters pF mF iF r = true ∧ r ∈ flattenRuns bm ∧
        ∀ r2 ∈ flattenRuns bm, runKey r2 = runKey r →
          matchesFilters pF mF iF r2 = true → r2.timestamp ≤ r.timestamp) ∧
    (∀ (bm : List Benchmark) (pF mF sF iF : String) (r : RunRow), sF ≠ "" →
      r ∈ flattenRuns bm →
      (lowerStr r.skill_name == sF && matchesFilters pF mF iF r) = true →
      r ∈ renderRows bm pF mF sF iF) := by
  refine ⟨?_, ?_, ?_⟩
  · intro bm pF mF iF
    show (dedupRows pF mF iF (sortDesc (flattenRuns bm)) []).Pairwise
      (fun a b => runKey a ≠ runKey b)
    exact dedupRows_keys_pairwise pF mF iF _ []
  · intro bm pF mF iF r h
    have h' : r ∈ dedupRows pF mF iF (sortDesc (flattenRuns bm)) [] := h
    rcases dedupRows_sub pF mF iF _ [] r h' with ⟨hmem, hmatch⟩
    refine ⟨hmatch, (mem_sortDesc r _).mp hmem, ?_⟩
    intro r2 hr2 hkey hm2
    exact dedupRows_max pF mF iF _ [] r (sortDesc_sorted _) h' r2
      ((mem_sortDesc r2 _).mpr hr2) hkey hm2
  · intro bm pF mF sF iF r hsF hr hpred
    have hcond : ¬((sF == "") = true) := fun e => hsF (eq_of_beq e)
    show r ∈ (if (sF == "") = true then
        dedupRows pF mF iF (sortDesc (flattenRuns bm)) []
      else (sortDesc (flattenRuns bm)).filter
        (fun r => lowerStr r.skill_name == sF && matchesFilters pF mF iF r))
    rw [if_neg hcond, List.mem_filter]
    exact ⟨(mem_sortDesc r _).mpr hr, hpred⟩

/-- Witness for claim C10: with the skill filter `sk`, both historical runs of the
skill are displayed, in particular the older one. -/
theorem renderTable_dedup_witness :
    (⟨"sk", "ollama", "m1", 1, "yes"⟩ : RunRow) ∈ renderRows bmDemo "" "" "sk" "" := by
  exact renderTable_dedup_properties.2.2 bmDemo "" "" "sk" ""
    ⟨"sk", "ollama", "m1", 1, "yes"⟩ (by decide) (by decide) (by decide)

end Skills
